import Mathlib

/-!
Shallow embedding of the CleanMedia core pipeline:
modules/subtitle_parser.py, modules/video_scanner.py,
modules/metadata_builder.py and modules/player_overlay.py.

Times, thresholds and confidences are embedded as rationals; every
arithmetic step the claims depend on is exact in the source as well
(millisecond subtitle stamps, one-second sample spans, literal
thresholds).  Python dictionaries read through dict.get are embedded as
structures with Option fields, `none` standing for an absent key.
-/

/-- An action dictionary as produced by the scanners and stored in the
metadata `actions` list: the union of the fields set by subtitle actions
(profanity) and by video actions (nudity/violence).  Fields a producer
does not set are `none`. -/
structure MediaAction where
  type : String
  start_time : ℚ
  end_time : ℚ
  original_text : Option String
  matched_word : Option String
  action_taken : Option String
  confidence : Option ℚ
  action_suggestion : Option String
deriving DecidableEq, Repr

/-- The profanity entry of the filters dictionary; `none` fields model
absent keys.  Every read in the source goes through dict.get with a
default, mirrored by getD below. -/
structure ProfanityDict where
  enabled : Option Bool
  word_list : Option (List String)
  replace_with : Option String
  action : Option String
deriving DecidableEq, Repr

/-- A nudity or violence entry of the filters dictionary. -/
structure ContentDict where
  enabled : Option Bool
  detection_threshold : Option ℚ
  action : Option String
deriving DecidableEq, Repr

/-- The filters dictionary passed around the pipeline; `none` models a
missing category key (filters.get of the category then yields an empty
dict, i.e. every field read falls back to its default). -/
structure Filters where
  profanity : Option ProfanityDict
  nudity : Option ContentDict
  violence : Option ContentDict
deriving DecidableEq, Repr

/-- A parsed SRT cue (an srt.Subtitle): index, start and end in seconds
(the total_seconds of the timedelta stamps) and the text content. -/
structure Cue where
  index : ℤ
  start : ℚ
  endTime : ℚ
  content : String
deriving DecidableEq, Repr

/-- Word characters for the regex word boundary; the texts involved are
ASCII, where the Python \w class is letters, digits and underscore. -/
def isWordChar (c : Char) : Bool := c.isAlpha || c.isDigit || c == '_'

/-- Case-insensitive literal match of `w` at the head of `s` (the
re.IGNORECASE literal step); returns the consumed original characters
together with the rest of `s`. -/
def ciConsume : List Char → List Char → Option (List Char × List Char)
  | [], s => some ([], s)
  | _ :: _, [] => none
  | c :: w, d :: s =>
    if c.toLower = d.toLower then
      (ciConsume w s).map (fun p => (d :: p.1, p.2))
    else none

/-- Boundary test on the left of a match position: start of text or a
non-word character before it. -/
def boundaryLeft : Option Char → Bool
  | none => true
  | some c => !(isWordChar c)

/-- Boundary test on the right of a match: end of text or a non-word
character next. -/
def boundaryRight : List Char → Bool
  | [] => true
  | c :: _ => !(isWordChar c)

/-- Try the regex alternation with word boundaries on both sides at the
current position.  Alternatives are tried in list order; the source
sorts the word list by length, longest first, before building the
pattern, so the longer word wins at a shared position.  Empty words are
skipped (word-list entries are non-empty by the configuration
invariant). -/
def tryWordsAt (prev : Option Char) (s : List Char) :
    List (List Char) → Option (List Char × List Char)
  | [] => none
  | [] :: ws => tryWordsAt prev s ws
  | (c :: w) :: ws =>
    match ciConsume (c :: w) s with
    | some (m, r) =>
      if boundaryLeft prev && boundaryRight r then some (m, r)
      else tryWordsAt prev s ws
    | none => tryWordsAt prev s ws

theorem ciConsume_some {w s m r : List Char}
    (h : ciConsume w s = some (m, r)) :
    m.length = w.length ∧ m.length + r.length = s.length := by
  induction w generalizing s m r with
  | nil =>
    simp only [ciConsume, Option.some.injEq, Prod.mk.injEq] at h
    simp [← h.1, ← h.2]
  | cons c w ih =>
    cases s with
    | nil => simp [ciConsume] at h
    | cons d s =>
      by_cases hc : c.toLower = d.toLower
      · cases hcs : ciConsume w s with
        | none => simp [ciConsume, hc, hcs] at h
        | some p =>
          simp only [ciConsume, hc, if_true, hcs, Option.map_some',
            Option.some.injEq, Prod.mk.injEq] at h
          obtain ⟨h1, h2⟩ := ih (show ciConsume w s = some (p.1, p.2) by rw [hcs])
          obtain ⟨hm, hr⟩ := h
          subst hm
          subst hr
          constructor
          · simp [h1]
          · simp only [List.length_cons]
            omega
      · simp [ciConsume, hc] at h

theorem tryWordsAt_some {prev : Option Char} {s : List Char}
    {ws : List (List Char)} {m r : List Char}
    (h : tryWordsAt prev s ws = some (m, r)) :
    0 < m.length ∧ m.length + r.length = s.length := by
  induction ws with
  | nil => simp [tryWordsAt] at h
  | cons w ws ih =>
    cases w with
    | nil => exact ih (by simpa [tryWordsAt] using h)
    | cons c w =>
      simp only [tryWordsAt] at h
      cases hcc : ciConsume (c :: w) s with
      | none =>
        rw [hcc] at h
        exact ih h
      | some p =>
        rw [hcc] at h
        by_cases hb : boundaryLeft prev && boundaryRight p.2
        · simp only [hb, if_pos rfl] at h
          cases h
          obtain ⟨h1, h2⟩ := ciConsume_some (w := c :: w) (s := s) hcc
          constructor
          · rw [h1]; simp
          · exact h2
        · simp only [hb] at h
          simp at hb
          exact ih (by simpa [hb] using h)

/-- One left-to-right pass of finditer and re.sub over the text,
structurally recursive on a fuel bound so that the kernel can evaluate
it: each step consumes at least one character of the text (every match
is non-empty by tryWordsAt_some), so fuel equal to the text length is
always enough, which findRepGo_fuel below makes precise.  Returns the
list of matched slices (in match order, in the original case) and the
text with every match replaced by `repl`.  The scan resumes after each
match, with the last matched character as the new left context, exactly
as the regex engine does for non-overlapping matches. -/
def findRepGo (words : List (List Char)) (repl : List Char) :
    ℕ → Option Char → List Char → List (List Char) × List Char
  | 0, _, _ => ([], [])
  | _ + 1, _, [] => ([], [])
  | fuel + 1, prev, c :: rest =>
    match tryWordsAt prev (c :: rest) words with
    | some (m, r) =>
      let p := findRepGo words repl fuel m.getLast? r
      (m :: p.1, repl ++ p.2)
    | none =>
      let p := findRepGo words repl fuel (some c) rest
      (p.1, c :: p.2)

/-- With at least text-length fuel, findRepGo does not depend on the
fuel: the fuel bound is never the reason a scan stops. -/
theorem findRepGo_fuel (words : List (List Char)) (repl : List Char) :
    ∀ (fuel₁ fuel₂ : ℕ) (prev : Option Char) (s : List Char),
      s.length ≤ fuel₁ → s.length ≤ fuel₂ →
      findRepGo words repl fuel₁ prev s = findRepGo words repl fuel₂ prev s := by
  intro fuel₁
  induction fuel₁ using Nat.strong_induction_on with
  | _ fuel₁ ih =>
    intro fuel₂ prev s h1 h2
    cases s with
    | nil =>
      cases fuel₁ <;> cases fuel₂ <;> simp [findRepGo]
    | cons c rest =>
      cases fuel₁ with
      | zero => simp at h1
      | succ f₁ =>
        cases fuel₂ with
        | zero => simp at h2
        | succ f₂ =>
          simp only [findRepGo]
          cases htw : tryWordsAt prev (c :: rest) words with
          | none =>
            simp only [List.length_cons] at h1 h2
            rw [ih f₁ (by omega) f₂ (some c) rest (by omega) (by omega)]
          | some p =>
            obtain ⟨m, r⟩ := p
            obtain ⟨hm, hlen⟩ := tryWordsAt_some (m := m) (r := r) htw
            dsimp only
            simp only [List.length_cons] at h1 h2 hlen
            rw [ih f₁ (by omega) f₂ m.getLast? r (by omega) (by omega)]

/-- Entry point of the scan-and-substitute pass: fuel set to the text
length. -/
def findAndReplace (words : List (List Char)) (repl : List Char)
    (prev : Option Char) (s : List Char) :
    List (List Char) × List Char :=
  findRepGo words repl s.length prev s

/-- The single-quote character, used in the action_taken message. -/
def squote : String := String.mk [Char.ofNat 39]

/-- The action dictionary appended for one regex match inside one cue
(subtitle_parser.py lines 100-108). -/
def profanityActionOf (sub : Cue) (replace_with act matched : String) :
    MediaAction :=
  { type := "profanity_mute"
    start_time := sub.start
    end_time := sub.endTime
    original_text := some sub.content
    matched_word := some matched
    action_taken := some ("replaced " ++ squote ++ matched ++ squote ++
      " with " ++ squote ++ replace_with ++ squote)
    confidence := none
    action_suggestion := some act }

/-- Processing of one cue in the main loop (subtitle_parser.py lines
86-124): record one action per match, and rebuild the cue with the
substituted text when there was at least one match. -/
def filterCue (rwords : List (List Char)) (replace_with act : String)
    (sub : Cue) : Cue × List MediaAction :=
  let p := findAndReplace rwords replace_with.toList none sub.content.toList
  if p.1 = [] then (sub, [])
  else
    ({ sub with content := String.mk p.2 },
     p.1.map (fun m => profanityActionOf sub replace_with act (String.mk m)))

/-- Stable insertion modelling Python sorted with key=len, reverse=True:
a later element is placed after all earlier elements of at least its
length. -/
def insertByLenDesc (w : String) : List String → List String
  | [] => [w]
  | v :: vs =>
    if v.length < w.length then w :: v :: vs else v :: insertByLenDesc w vs

/-- Stable descending-by-length sort of the word list
(subtitle_parser.py line 75). -/
def sortByLenDesc (ws : List String) : List String :=
  ws.foldl (fun acc w => insertByLenDesc w acc) []

/-- Default profanity dict for a missing profanity key. -/
def emptyProfanityDict : ProfanityDict := ⟨none, none, none, none⟩

/-- filters.get of the profanity enabled flag with its default. -/
def profanityEnabled (f : Filters) : Bool :=
  (f.profanity.getD emptyProfanityDict).enabled.getD false

/-- filters.get of the profanity word list with its default. -/
def profanityWordList (f : Filters) : List String :=
  (f.profanity.getD emptyProfanityDict).word_list.getD []

/-- filters.get of the profanity replacement text with its default. -/
def profanityReplaceWith (f : Filters) : String :=
  (f.profanity.getD emptyProfanityDict).replace_with.getD "[CENSORED]"

/-- filters.get of the profanity remediation action with its default. -/
def profanityActionCfg (f : Filters) : String :=
  (f.profanity.getD emptyProfanityDict).action.getD "mute_audio"

/-- The triple returned by parse_and_filter_subtitles. -/
structure SubtitleResult where
  original : List Cue
  filtered : List Cue
  actions : List MediaAction
deriving DecidableEq, Repr

/-- Embedding of parse_and_filter_subtitles (subtitle_parser.py lines
10-133).  The input file is `none` when missing or unparsable (the
FileNotFoundError and generic exception handlers return three empty
lists) and `some cues` for the parsed srt.Subtitle list; SRT text
parsing itself is the external srt library.  With the filter disabled or
the word list empty the parsed list is returned unchanged as both the
original and the filtered sequence, with no actions. -/
def parse_and_filter_subtitles (subFile : Option (List Cue))
    (filters : Filters) : SubtitleResult :=
  let profanity_enabled := profanityEnabled filters
  let word_list := profanityWordList filters
  let replace_with := profanityReplaceWith filters
  let profanity_action := profanityActionCfg filters
  if profanity_enabled = false ∨ word_list = [] then
    match subFile with
    | some subs => ⟨subs, subs, []⟩
    | none => ⟨[], [], []⟩
  else
    match subFile with
    | none => ⟨[], [], []⟩
    | some subs =>
      let rwords := (sortByLenDesc word_list).map String.toList
      ⟨subs,
       subs.map (fun sub => (filterCue rwords replace_with profanity_action sub).1),
       subs.flatMap (fun sub => (filterCue rwords replace_with profanity_action sub).2)⟩

/-- Default content dict for a missing nudity or violence key. -/
def emptyContentDict : ContentDict := ⟨none, none, none⟩

/-- filters.get of the nudity enabled flag with its default. -/
def nudityEnabled (f : Filters) : Bool :=
  (f.nudity.getD emptyContentDict).enabled.getD false

/-- filters.get of the nudity threshold with its default. -/
def nudityThreshold (f : Filters) : ℚ :=
  (f.nudity.getD emptyContentDict).detection_threshold.getD 0.75

/-- filters.get of the nudity remediation action with its default. -/
def nudityActionCfg (f : Filters) : String :=
  (f.nudity.getD emptyContentDict).action.getD "blur_region"

/-- filters.get of the violence enabled flag with its default. -/
def violenceEnabled (f : Filters) : Bool :=
  (f.violence.getD emptyContentDict).enabled.getD false

/-- filters.get of the violence threshold with its default. -/
def violenceThreshold (f : Filters) : ℚ :=
  (f.violence.getD emptyContentDict).detection_threshold.getD 0.65

/-- filters.get of the violence remediation action with its default. -/
def violenceActionCfg (f : Filters) : String :=
  (f.violence.getD emptyContentDict).action.getD "skip_scene"

/-- Sample indices of the scan loop (video_scanner.py lines 96-98):
frame indices below frame_count that are multiples of frame_interval.
The source computes i % frame_interval inside a loop over
range(frame_count); frame_interval is int(fps) and is positive for
every claim considered here (for 0 < fps < 1 the source would raise a
ZeroDivisionError instead). -/
def sampleIndices (frame_count frame_interval : ℕ) : List ℕ :=
  (List.range frame_count).filter (fun i => i % frame_interval == 0)

/-- The nudity action dictionary appended for a triggering sample
(video_scanner.py lines 117-123). -/
def nudityActionAt (t conf : ℚ) (act : String) : MediaAction :=
  { type := "nudity_detection"
    start_time := t
    end_time := t + 1
    original_text := none
    matched_word := none
    action_taken := none
    confidence := some conf
    action_suggestion := some act }

/-- The violence action dictionary appended for a triggering sample
(video_scanner.py lines 127-133). -/
def violenceActionAt (t conf : ℚ) (act : String) : MediaAction :=
  { type := "violence_detection"
    start_time := t
    end_time := t + 1
    original_text := none
    matched_word := none
    action_taken := none
    confidence := some conf
    action_suggestion := some act }

/-- Embedding of scan_video_for_content (video_scanner.py lines 11-137).
The video source is abstracted to `none` when the file is missing, is a
small placeholder, or cv2 cannot open it — the source then simulates 25
fps and 25*60 frames — and to `some (fps, frame_count)` for a readable
source.  The per-sample classifier confidences are injected as functions
of the sample time, per the spec's injected-classifier contract; the
concrete classifier the source simulates is simScoreNudity and
simScoreViolence below. -/
def scan_video_for_content (props : Option (ℚ × ℕ)) (filters : Filters)
    (nScore vScore : ℚ → ℚ) : List MediaAction :=
  let nudity_enabled := nudityEnabled filters
  let nudity_threshold := nudityThreshold filters
  let nudity_action := nudityActionCfg filters
  let violence_enabled := violenceEnabled filters
  let violence_threshold := violenceThreshold filters
  let violence_action := violenceActionCfg filters
  if nudity_enabled = false ∧ violence_enabled = false then []
  else
    let fps₀ := (props.getD (25, 25 * 60)).1
    let frame_count := (props.getD (25, 25 * 60)).2
    let fps := if fps₀ = 0 then 25 else fps₀
    let frame_interval := (⌊fps⌋).toNat
    (sampleIndices frame_count frame_interval).flatMap (fun i =>
      let t : ℚ := (i : ℚ) / fps
      (if nudity_enabled = true ∧ nudity_threshold ≤ nScore t then
        [nudityActionAt t (nScore t) nudity_action]
      else []) ++
      (if violence_enabled = true ∧ violence_threshold ≤ vScore t then
        [violenceActionAt t (vScore t) violence_action]
      else []))

/-- Noise-free form of the simulated classifier the scanner hard-codes
(video_scanner.py lines 87-114): the confidence_base of the simulated
nudity event covering t, and 0 outside every event.  The
random.uniform(-0.05, 0.05) noise term is taken as 0; every concrete
statement below that uses these scores is insensitive to noise anywhere
in that band, because each base sits at least 0.05 away from the
threshold it is compared against. -/
def simScoreNudity (t : ℚ) : ℚ :=
  if 20 ≤ t ∧ t < 25 then 0.9 else if 40 ≤ t ∧ t < 42 then 0.8 else 0

/-- Noise-free simulated violence score, as simScoreNudity. -/
def simScoreViolence (t : ℚ) : ℚ :=
  if 30 ≤ t ∧ t < 35 then 0.95 else if 50 ≤ t ∧ t < 53 then 0.85 else 0

/-- Sample instants of a scan over the given source properties: the
sample indices of the cadence filter, divided by the (defaulted) fps. -/
def sampleTimes (props : Option (ℚ × ℕ)) : List ℚ :=
  let fps := if (props.getD (25, 25 * 60)).1 = 0 then 25
    else (props.getD (25, 25 * 60)).1
  (sampleIndices (props.getD (25, 25 * 60)).2 (⌊fps⌋).toNat).map
    (fun i : ℕ => (i : ℚ) / fps)

/-- Stable insertion by ascending start_time: a later element is placed
after all earlier elements whose start_time is not greater.  Folding it
over a list reproduces Python list.sort(key=start_time), which is
stable, and a stable sort of a total preorder is unique. -/
def insertByStart (a : MediaAction) : List MediaAction → List MediaAction
  | [] => [a]
  | b :: bs =>
    if a.start_time < b.start_time then a :: b :: bs else b :: insertByStart a bs

/-- Stable ascending sort by start_time (metadata_builder.py line 166
and player_overlay.py line 34). -/
def sortByStart (l : List MediaAction) : List MediaAction :=
  l.foldl (fun acc a => insertByStart a acc) []

/-- The concatenate-and-sort stage that produces the metadata actions
list (metadata_builder.py lines 94, 127, 166): subtitle actions then
video actions are appended and the whole list is stably sorted by
start_time.  No merging is applied to this list. -/
def build_media_actions (sub_actions video_actions : List MediaAction) :
    List MediaAction :=
  sortByStart (sub_actions ++ video_actions)

/-- The metadata record assembled by build_media_metadata, restricted to
the fields the claims reason about. -/
structure Metadata where
  profanity_applied : Bool
  nudity_applied : Bool
  violence_applied : Bool
  actions : List MediaAction
deriving DecidableEq, Repr

/-- Embedding of build_media_metadata (metadata_builder.py lines
26-184).  subFile is none when no subtitle path was given or the file is
absent (the subtitle stage is skipped); videoProps is none when the
video file is absent (the scan is skipped) and otherwise carries the
openability information handed to the scanner.  The JSON and preview
writes are I/O on the same data and are not modelled. -/
def build_media_metadata (subFile : Option (List Cue))
    (videoProps : Option (Option (ℚ × ℕ))) (filters : Filters)
    (nScore vScore : ℚ → ℚ) : Metadata :=
  let profanity_enabled := profanityEnabled filters
  let nudity_enabled := nudityEnabled filters
  let violence_enabled := violenceEnabled filters
  let sub_actions :=
    match subFile with
    | some cues =>
      if profanity_enabled then
        (parse_and_filter_subtitles (some cues) filters).actions
      else []
    | none => []
  let video_actions :=
    match videoProps with
    | some props =>
      if nudity_enabled || violence_enabled then
        scan_video_for_content props filters nScore vScore
      else []
    | none => []
  ⟨profanity_enabled, nudity_enabled, violence_enabled,
   build_media_actions sub_actions video_actions⟩

/-- The running-group loop of the preview rendering (metadata_builder.py
lines 134-147): the open group absorbs the next action when it has the
same type and starts within one second of the group's end, extending the
group's end to the maximum; otherwise the group is closed and the action
opens a new one. -/
def groupLoop : List MediaAction → MediaAction → List MediaAction → List MediaAction
  | [], cur, acc => acc ++ [cur]
  | a :: rest, cur, acc =>
    if a.type = cur.type ∧ a.start_time ≤ cur.end_time + 1 then
      groupLoop rest { cur with end_time := max cur.end_time a.end_time } acc
    else
      groupLoop rest a (acc ++ [cur])

/-- The per-type grouping pass applied to the video actions for the
human-readable preview report (metadata_builder.py lines 131-147),
after the stable sort by start_time. -/
def groupActions (video_actions : List MediaAction) : List MediaAction :=
  match sortByStart video_actions with
  | [] => []
  | a :: rest => groupLoop rest a []

/-- Mutable cursor state of MediaPlaybackController: the
current_action_index cursor and last_action_time, initialized to -1
(player_overlay.py lines 26-27). -/
structure PlayerState where
  current_action_index : ℕ
  last_action_time : ℚ
deriving DecidableEq, Repr

/-- Initial cursor state of a controller. -/
def initPlayerState : PlayerState := ⟨0, -1⟩

/-- The forward scan of _check_and_apply_actions from the cursor
(player_overlay.py lines 131-147), traversing the action list from the
cursor: fire the first action whose window contains t and stop; stop
without firing at the first future action; silently advance past stale
actions whose window has already passed.  Returns the new cursor index
and the actions applied (the _apply_action calls of this scan, in
order). -/
def scanFrom (t : ℚ) : List MediaAction → ℕ → ℕ × List MediaAction
  | [], idx => (idx, [])
  | a :: rest, idx =>
    if a.start_time ≤ t ∧ t < a.end_time then (idx + 1, [a])
    else if t < a.start_time then (idx, [])
    else scanFrom t rest (idx + 1)

/-- Embedding of one tick of _check_and_apply_actions (player_overlay.py
lines 123-147) at clock value t: a no-op within 0.05 s of the last
applied action, otherwise the forward scan from the cursor;
last_action_time is set to t exactly when an action fired.  Returns the
updated state and the actions applied during the tick. -/
def check_and_apply_actions (actions : List MediaAction) (s : PlayerState)
    (t : ℚ) : PlayerState × List MediaAction :=
  if t ≤ s.last_action_time + 1/20 then (s, [])
  else
    let r := scanFrom t (actions.drop s.current_action_index)
      s.current_action_index
    match r.2 with
    | [] => (⟨r.1, s.last_action_time⟩, [])
    | fired => (⟨r.1, t⟩, fired)

/-- Folding a sequence of tick clock values through the per-tick check
(the 100 ms polling loop of _simulate_playback). -/
def runTicks (actions : List MediaAction) (s : PlayerState) (ts : List ℚ) :
    PlayerState :=
  ts.foldl (fun st t => (check_and_apply_actions actions st t).1) s

/-- Category of an action as carried by its type string
("profanity_mute", "nudity_detection", "violence_detection"). -/
def MediaAction.category (a : MediaAction) : String := a.type

/-- Interval overlap of two actions: the source spans are [start, end)
windows, which intersect exactly when each starts before the other
ends. -/
def overlaps (a b : MediaAction) : Prop :=
  a.start_time < b.end_time ∧ b.start_time < a.end_time

instance (a b : MediaAction) : Decidable (overlaps a b) :=
  inferInstanceAs (Decidable (_ ∧ _))

/-- The merging invariant stated by the spec for a built timeline: any
two events of the same category are the same event or their intervals
do not overlap. -/
def noSameCategoryOverlap (l : List MediaAction) : Prop :=
  ∀ a ∈ l, ∀ b ∈ l, a.category = b.category → a ≠ b → ¬ overlaps a b

instance (l : List MediaAction) : Decidable (noSameCategoryOverlap l) :=
  inferInstanceAs
    (Decidable (∀ a ∈ l, ∀ b ∈ l, a.category = b.category → a ≠ b →
      ¬ overlaps a b))

/-- The cue of spec scenario 1: [1.0, 3.5) with the sample text; 3.5 is
written mkRat 7 2 so that the kernel can evaluate comparisons on it. -/
def scenario1Cue : Cue := ⟨1, 1, mkRat 7 2, "This is a damn good movie."⟩

/-- The filters of spec scenario 1: profanity enabled, word_list
["damn"], replace_with "[bleep]". -/
def scenario1Filters : Filters :=
  ⟨some ⟨some true, some ["damn"], some "[bleep]", none⟩, none, none⟩

/-- C4: on the scenario-1 cue with word_list ["damn"] and replace_with
"[bleep]", the lexical scanner yields exactly one action of category
profanity_mute spanning [1.0, 3.5) with matched word "damn", and the
rewritten cue text is "This is a [bleep] good movie." with index and
times unchanged. -/
theorem c4_scenario1 :
    (parse_and_filter_subtitles (some [scenario1Cue]) scenario1Filters).actions =
      [⟨"profanity_mute", 1, mkRat 7 2, some "This is a damn good movie.",
        some "damn",
        some ("replaced " ++ squote ++ "damn" ++ squote ++ " with " ++
          squote ++ "[bleep]" ++ squote), none, some "mute_audio"⟩] ∧
    (parse_and_filter_subtitles (some [scenario1Cue]) scenario1Filters).filtered =
      [⟨1, 1, mkRat 7 2, "This is a [bleep] good movie."⟩] := by
  constructor <;> decide

/-- C8: whenever the profanity filter is disabled or its word list is
empty, the lexical scanner returns the parsed cue sequence unchanged as
both the original and the filtered list, with zero actions. -/
theorem c8_disabled_or_empty (subFile : Option (List Cue)) (filters : Filters)
    (h : profanityEnabled filters = false ∨ profanityWordList filters = []) :
    parse_and_filter_subtitles subFile filters =
      ⟨subFile.getD [], subFile.getD [], []⟩ := by
  simp only [parse_and_filter_subtitles]
  rw [if_pos h]
  cases subFile <;> rfl

theorem c8_disabled_or_empty_witness :
    parse_and_filter_subtitles (some [scenario1Cue])
      ⟨some ⟨some false, some ["damn"], some "[bleep]", none⟩, none, none⟩ =
      ⟨[scenario1Cue], [scenario1Cue], []⟩ :=
  c8_disabled_or_empty (some [scenario1Cue])
    ⟨some ⟨some false, some ["damn"], some "[bleep]", none⟩, none, none⟩
    (Or.inl rfl)

/-- C10: when the filters dictionary has no profanity entry at all, the
lexical scanner behaves exactly as with the filter disabled: the parsed
cues come back unchanged in both lists and the action list is empty. -/
theorem c10_missing_profanity_key (subFile : Option (List Cue))
    (filters : Filters) (h : filters.profanity = none) :
    parse_and_filter_subtitles subFile filters =
      ⟨subFile.getD [], subFile.getD [], []⟩ := by
  simp only [parse_and_filter_subtitles, profanityEnabled, h, Option.getD_none,
    emptyProfanityDict]
  cases subFile <;> rfl

theorem c10_missing_profanity_key_witness :
    parse_and_filter_subtitles (some [scenario1Cue]) ⟨none, none, none⟩ =
      ⟨[scenario1Cue], [scenario1Cue], []⟩ :=
  c10_missing_profanity_key (some [scenario1Cue]) ⟨none, none, none⟩ rfl

/-- C3: the timeline-building stage is deterministic: for equal scanner
output lists it produces the same sorted actions list and the same
grouped preview sequence (there is no randomness in this stage; the
merge tolerance is the fixed one-second window of groupLoop). -/
theorem c3_deterministic (s₁ s₂ v₁ v₂ : List MediaAction)
    (hs : s₁ = s₂) (hv : v₁ = v₂) :
    build_media_actions s₁ v₁ = build_media_actions s₂ v₂ ∧
    groupActions v₁ = groupActions v₂ := by
  subst hs
  subst hv
  exact ⟨rfl, rfl⟩

theorem c3_deterministic_witness :
    build_media_actions [] [violenceActionAt 30 0.95 "skip_scene"] =
      build_media_actions [] [violenceActionAt 30 0.95 "skip_scene"] ∧
    groupActions [violenceActionAt 30 0.95 "skip_scene"] =
      groupActions [violenceActionAt 30 0.95 "skip_scene"] :=
  c3_deterministic [] [] [violenceActionAt 30 0.95 "skip_scene"]
    [violenceActionAt 30 0.95 "skip_scene"] rfl rfl

theorem scanFrom_fired_le_one (t : ℚ) (l : List MediaAction) (idx : ℕ) :
    (scanFrom t l idx).2.length ≤ 1 := by
  induction l generalizing idx with
  | nil => simp [scanFrom]
  | cons a rest ih =>
    simp only [scanFrom]
    split
    · simp
    · split
      · simp
      · exact ih (idx + 1)

/-- C6: one tick of the playback check applies at most one action, no
matter how many events are simultaneously active: the forward scan
returns upon the first active action. -/
theorem c6_at_most_one_action (actions : List MediaAction) (s : PlayerState)
    (t : ℚ) : (check_and_apply_actions actions s t).2.length ≤ 1 := by
  simp only [check_and_apply_actions]
  split
  · simp
  · cases hr : (scanFrom t (actions.drop s.current_action_index)
      s.current_action_index).2 with
    | nil => simp [hr]
    | cons a rest =>
      have h := scanFrom_fired_le_one t (actions.drop s.current_action_index)
        s.current_action_index
      rw [hr] at h
      simpa [hr] using h

theorem scanFrom_idx_le (t : ℚ) (l : List MediaAction) (idx : ℕ) :
    idx ≤ (scanFrom t l idx).1 := by
  induction l generalizing idx with
  | nil => simp [scanFrom]
  | cons a rest ih =>
    simp only [scanFrom]
    split
    · simp
    · split
      · simp
      · exact le_trans (Nat.le_succ idx) (ih (idx + 1))

theorem check_and_apply_idx_le (actions : List MediaAction) (s : PlayerState)
    (t : ℚ) :
    s.current_action_index ≤
      (check_and_apply_actions actions s t).1.current_action_index := by
  simp only [check_and_apply_actions]
  split
  · exact le_refl _
  · cases hr : (scanFrom t (actions.drop s.current_action_index)
      s.current_action_index).2 with
    | nil =>
      simp only [hr]
      exact scanFrom_idx_le t _ s.current_action_index
    | cons a rest =>
      simp only [hr]
      exact scanFrom_idx_le t _ s.current_action_index

theorem runTicks_idx_le (actions : List MediaAction) (ts : List ℚ)
    (s : PlayerState) :
    s.current_action_index ≤ (runTicks actions s ts).current_action_index := by
  induction ts generalizing s with
  | nil => exact le_refl _
  | cons t ts ih =>
    exact le_trans (check_and_apply_idx_le actions s t)
      (ih ((check_and_apply_actions actions s t).1))

/-- C7: over any tick sequence with a non-decreasing clock, the cursor
index of the replayer is non-decreasing: after m ticks it is at least
its value after the first n ≤ m ticks. -/
theorem c7_cursor_monotone (actions : List MediaAction) (ts : List ℚ)
    (s : PlayerState) (_hclock : ts.Chain' (· ≤ ·)) (n m : ℕ) (hnm : n ≤ m) :
    (runTicks actions s (ts.take n)).current_action_index ≤
      (runTicks actions s (ts.take m)).current_action_index := by
  have hsplit : ts.take m = ts.take n ++ ((ts.drop n).take (m - n)) := by
    rw [← List.take_add]
    congr 1
    omega
  rw [hsplit]
  unfold runTicks
  rw [List.foldl_append]
  exact runTicks_idx_le actions ((ts.drop n).take (m - n)) _

theorem c7_cursor_monotone_witness :
    (runTicks [⟨"violence_detection", 5, 8, none, none, none,
        some (mkRat 9 10), some "skip_scene"⟩] initPlayerState
      (([1, 6] : List ℚ).take 1)).current_action_index ≤
    (runTicks [⟨"violence_detection", 5, 8, none, none, none,
        some (mkRat 9 10), some "skip_scene"⟩] initPlayerState
      (([1, 6] : List ℚ).take 2)).current_action_index :=
  c7_cursor_monotone [⟨"violence_detection", 5, 8, none, none, none,
      some (mkRat 9 10), some "skip_scene"⟩] [1, 6] initPlayerState
    (by norm_num [List.chain'_cons]) 1 2 (by decide)

theorem filterCue_frame (rwords : List (List Char)) (replace_with act : String)
    (sub : Cue) :
    ((filterCue rwords replace_with act sub).1).index = sub.index ∧
    ((filterCue rwords replace_with act sub).1).start = sub.start ∧
    ((filterCue rwords replace_with act sub).1).endTime = sub.endTime := by
  simp only [filterCue]
  split
  · exact ⟨rfl, rfl, rfl⟩
  · exact ⟨rfl, rfl, rfl⟩

/-- C9: for every input and filter configuration the filtered cue list
matches the original cue list element by element — same length, and each
filtered cue keeps the index, start and end of its original; only the
text content can differ. -/
theorem c9_filtered_preserves_frame (subFile : Option (List Cue))
    (filters : Filters) :
    (parse_and_filter_subtitles subFile filters).filtered.length =
      (parse_and_filter_subtitles subFile filters).original.length ∧
    List.Forall₂ (fun o f => f.index = o.index ∧ f.start = o.start ∧
        f.endTime = o.endTime)
      (parse_and_filter_subtitles subFile filters).original
      (parse_and_filter_subtitles subFile filters).filtered := by
  have hall : ∀ r : SubtitleResult,
      List.Forall₂ (fun o f => f.index = o.index ∧ f.start = o.start ∧
        f.endTime = o.endTime) r.original r.filtered →
      r.filtered.length = r.original.length ∧
      List.Forall₂ (fun o f => f.index = o.index ∧ f.start = o.start ∧
        f.endTime = o.endTime) r.original r.filtered :=
    fun r h => ⟨(List.Forall₂.length_eq h).symm, h⟩
  apply hall
  simp only [parse_and_filter_subtitles]
  split
  · cases subFile with
    | none => exact List.Forall₂.nil
    | some subs =>
      exact List.forall₂_same.mpr (fun o _ => ⟨rfl, rfl, rfl⟩)
  · cases subFile with
    | none => exact List.Forall₂.nil
    | some subs =>
      simp only
      rw [List.forall₂_map_right_iff]
      exact List.forall₂_same.mpr (fun o _ => filterCue_frame _ _ _ o)

/-- C2 amended: a missing, placeholder or unopenable source degrades to
the simulated nominal properties (25 fps, 25 * 60 frames, i.e. 60
seconds) instead of failing, and then runs exactly the per-sample
classification an openable source with those properties would get; it
emits no events when both categories are disabled. -/
theorem c2_amended_degraded (filters : Filters) (nScore vScore : ℚ → ℚ) :
    scan_video_for_content none filters nScore vScore =
      scan_video_for_content (some (25, 25 * 60)) filters nScore vScore ∧
    (nudityEnabled filters = false → violenceEnabled filters = false →
      scan_video_for_content none filters nScore vScore = []) := by
  refine ⟨rfl, fun h1 h2 => ?_⟩
  simp [scan_video_for_content, h1, h2]

theorem c2_amended_degraded_witness :
    scan_video_for_content none ⟨none, none, none⟩ simScoreNudity
      simScoreViolence = [] :=
  (c2_amended_degraded ⟨none, none, none⟩ simScoreNudity simScoreViolence).2
    rfl rfl

/-- The dummy filters the video_scanner self-test installs
(video_scanner.py lines 148-152); the thresholds 0.7 and 0.6 are written
as mkRat so the kernel can evaluate them. -/
def scannerTestFilters : Filters :=
  ⟨some ⟨some false, none, none, none⟩,
   some ⟨some true, some (mkRat 7 10), some "blur_region"⟩,
   some ⟨some true, some (mkRat 3 5), some "skip_scene"⟩⟩

/-- C2 as stated is false: for the missing-file input the scanner still
runs its simulated per-sample classification and emits detection events
— here the nudity sample at t = 20 s with simulated confidence 0.9
against threshold 0.7. -/
theorem c2_counterexample :
    scan_video_for_content none scannerTestFilters simScoreNudity
      simScoreViolence ≠ [] := by
  apply List.ne_nil_of_mem
    (a := nudityActionAt 20 (simScoreNudity 20) "blur_region")
  simp only [scan_video_for_content]
  rw [if_neg (by simp [scannerTestFilters, nudityEnabled])]
  simp only [List.mem_flatMap]
  refine ⟨500, ?_, ?_⟩
  · have h25 : ((⌊if ((none : Option (ℚ × ℕ)).getD (25, 25 * 60)).1 = 0
        then (25 : ℚ) else ((none : Option (ℚ × ℕ)).getD (25, 25 * 60)).1⌋).toNat) = 25 := by
      norm_num
      decide
    rw [h25]
    unfold sampleIndices
    rw [List.mem_filter]
    refine ⟨List.mem_range.mpr (by norm_num), by decide⟩
  · have ht : ((500 : ℕ) : ℚ) /
        (if ((none : Option (ℚ × ℕ)).getD (25, 25 * 60)).1 = 0 then (25 : ℚ)
         else ((none : Option (ℚ × ℕ)).getD (25, 25 * 60)).1) = 20 := by
      norm_num
    rw [ht]
    have hsn : simScoreNudity 20 = 0.9 := by norm_num [simScoreNudity]
    have hsv : simScoreViolence 20 = 0 := by norm_num [simScoreViolence]
    rw [List.mem_append]
    left
    rw [if_pos]
    · exact List.mem_singleton.mpr rfl
    · refine ⟨rfl, ?_⟩
      rw [hsn]
      show nudityThreshold scannerTestFilters ≤ 0.9
      norm_num [nudityThreshold, scannerTestFilters]

theorem mem_ite_singleton {α : Type} {c : Prop} [Decidable c] {x e : α}
    (h : e ∈ if c then [x] else []) : e = x := by
  by_cases hc : c
  · rw [if_pos hc] at h
    exact List.mem_singleton.mp h
  · rw [if_neg hc] at h
    exact absurd h (List.not_mem_nil e)

theorem filter_flatMap {α β : Type} (l : List α) (f : α → List β)
    (p : β → Bool) :
    (l.flatMap f).filter p = l.flatMap (fun x => (f x).filter p) := by
  induction l with
  | nil => rfl
  | cons a l ih => simp [List.flatMap_cons, List.filter_append, ih]

theorem flatMap_ite_eq_filter_map {α β : Type} (l : List α) (tf : α → ℚ)
    (p : ℚ → Prop) [DecidablePred p] (mk : ℚ → β) :
    (l.flatMap (fun i => if p (tf i) then [mk (tf i)] else [])) =
      ((l.map tf).filter (fun t => decide (p t))).map mk := by
  induction l with
  | nil => rfl
  | cons a l ih => by_cases h : p (tf a) <;> simp [h, ih]

/-- C5: the frame scanner emits, per enabled category, exactly one event
for each sample instant whose injected confidence is at least the
configured threshold — the filtered output equals the map of the event
constructor over the triggering sample instants, so adjacent triggering
samples stay separate events — and every emitted event spans exactly
[t, t + 1). -/
theorem c5_frame_scanner_samples (props : Option (ℚ × ℕ)) (filters : Filters)
    (nScore vScore : ℚ → ℚ) :
    (∀ e ∈ scan_video_for_content props filters nScore vScore,
      e.end_time = e.start_time + 1) ∧
    (nudityEnabled filters = true →
      (scan_video_for_content props filters nScore vScore).filter
          (fun e => e.type == "nudity_detection") =
        ((sampleTimes props).filter
            (fun t => decide (nudityThreshold filters ≤ nScore t))).map
          (fun t => nudityActionAt t (nScore t) (nudityActionCfg filters))) ∧
    (violenceEnabled filters = true →
      (scan_video_for_content props filters nScore vScore).filter
          (fun e => e.type == "violence_detection") =
        ((sampleTimes props).filter
            (fun t => decide (violenceThreshold filters ≤ vScore t))).map
          (fun t => violenceActionAt t (vScore t) (violenceActionCfg filters))) := by
  refine ⟨?_, ?_, ?_⟩
  · intro e he
    simp only [scan_video_for_content] at he
    split at he
    · exact absurd he (List.not_mem_nil e)
    · simp only [List.mem_flatMap] at he
      obtain ⟨i, _, he⟩ := he
      rw [List.mem_append] at he
      cases he with
      | inl h => rw [mem_ite_singleton h]; rfl
      | inr h => rw [mem_ite_singleton h]; rfl
  · intro hn
    simp only [scan_video_for_content, hn]
    rw [if_neg (by simp)]
    rw [filter_flatMap]
    have hbody : ∀ i : ℕ,
        (((if True ∧ nudityThreshold filters ≤
              nScore ((i : ℚ) / (if (props.getD (25, 25 * 60)).1 = 0 then 25
                else (props.getD (25, 25 * 60)).1)) then
            [nudityActionAt ((i : ℚ) / (if (props.getD (25, 25 * 60)).1 = 0
                then 25 else (props.getD (25, 25 * 60)).1))
              (nScore ((i : ℚ) / (if (props.getD (25, 25 * 60)).1 = 0 then 25
                else (props.getD (25, 25 * 60)).1))) (nudityActionCfg filters)]
          else []) ++
          (if violenceEnabled filters = true ∧ violenceThreshold filters ≤
              vScore ((i : ℚ) / (if (props.getD (25, 25 * 60)).1 = 0 then 25
                else (props.getD (25, 25 * 60)).1)) then
            [violenceActionAt ((i : ℚ) / (if (props.getD (25, 25 * 60)).1 = 0
                then 25 else (props.getD (25, 25 * 60)).1))
              (vScore ((i : ℚ) / (if (props.getD (25, 25 * 60)).1 = 0 then 25
                else (props.getD (25, 25 * 60)).1))) (violenceActionCfg filters)]
          else [])).filter (fun e => e.type == "nudity_detection")) =
        (if nudityThreshold filters ≤
            nScore ((i : ℚ) / (if (props.getD (25, 25 * 60)).1 = 0 then 25
              else (props.getD (25, 25 * 60)).1)) then
          [nudityActionAt ((i : ℚ) / (if (props.getD (25, 25 * 60)).1 = 0
              then 25 else (props.getD (25, 25 * 60)).1))
            (nScore ((i : ℚ) / (if (props.getD (25, 25 * 60)).1 = 0 then 25
              else (props.getD (25, 25 * 60)).1))) (nudityActionCfg filters)]
        else []) := by
      intro i
      rw [List.filter_append, apply_ite (List.filter _), apply_ite (List.filter _)]
      simp [nudityActionAt, violenceActionAt, List.filter]
    simp only [hbody]
    simp only [sampleTimes]
    exact flatMap_ite_eq_filter_map
      (sampleIndices (props.getD (25, 25 * 60)).2
        (⌊if (props.getD (25, 25 * 60)).1 = 0 then (25 : ℚ)
          else (props.getD (25, 25 * 60)).1⌋).toNat)
      (fun i : ℕ => (i : ℚ) / (if (props.getD (25, 25 * 60)).1 = 0 then (25 : ℚ)
        else (props.getD (25, 25 * 60)).1))
      (fun t => nudityThreshold filters ≤ nScore t)
      (fun t => nudityActionAt t (nScore t) (nudityActionCfg filters))
  · intro hv
    simp only [scan_video_for_content, hv]
    rw [if_neg (by simp)]
    rw [filter_flatMap]
    have hbody : ∀ i : ℕ,
        (((if nudityEnabled filters = true ∧ nudityThreshold filters ≤
              nScore ((i : ℚ) / (if (props.getD (25, 25 * 60)).1 = 0 then 25
                else (props.getD (25, 25 * 60)).1)) then
            [nudityActionAt ((i : ℚ) / (if (props.getD (25, 25 * 60)).1 = 0
                then 25 else (props.getD (25, 25 * 60)).1))
              (nScore ((i : ℚ) / (if (props.getD (25, 25 * 60)).1 = 0 then 25
                else (props.getD (25, 25 * 60)).1))) (nudityActionCfg filters)]
          else []) ++
          (if True ∧ violenceThreshold filters ≤
              vScore ((i : ℚ) / (if (props.getD (25, 25 * 60)).1 = 0 then 25
                else (props.getD (25, 25 * 60)).1)) then
            [violenceActionAt ((i : ℚ) / (if (props.getD (25, 25 * 60)).1 = 0
                then 25 else (props.getD (25, 25 * 60)).1))
              (vScore ((i : ℚ) / (if (props.getD (25, 25 * 60)).1 = 0 then 25
                else (props.getD (25, 25 * 60)).1))) (violenceActionCfg filters)]
          else [])).filter (fun e => e.type == "violence_detection")) =
        (if violenceThreshold filters ≤
            vScore ((i : ℚ) / (if (props.getD (25, 25 * 60)).1 = 0 then 25
              else (props.getD (25, 25 * 60)).1)) then
          [violenceActionAt ((i : ℚ) / (if (props.getD (25, 25 * 60)).1 = 0
              then 25 else (props.getD (25, 25 * 60)).1))
            (vScore ((i : ℚ) / (if (props.getD (25, 25 * 60)).1 = 0 then 25
              else (props.getD (25, 25 * 60)).1))) (violenceActionCfg filters)]
        else []) := by
      intro i
      rw [List.filter_append, apply_ite (List.filter _), apply_ite (List.filter _)]
      simp [nudityActionAt, violenceActionAt, List.filter]
    simp only [hbody]
    simp only [sampleTimes]
    exact flatMap_ite_eq_filter_map
      (sampleIndices (props.getD (25, 25 * 60)).2
        (⌊if (props.getD (25, 25 * 60)).1 = 0 then (25 : ℚ)
          else (props.getD (25, 25 * 60)).1⌋).toNat)
      (fun i : ℕ => (i : ℚ) / (if (props.getD (25, 25 * 60)).1 = 0 then (25 : ℚ)
        else (props.getD (25, 25 * 60)).1))
      (fun t => violenceThreshold filters ≤ vScore t)
      (fun t => violenceActionAt t (vScore t) (violenceActionCfg filters))

/-- A cue containing two distinct configured words, so the lexical
scanner emits two same-category actions over the same [10, 12) span. -/
def c1Cue : Cue := ⟨1, 10, 12, "damn hell"⟩

/-- Filters for the C1 counterexample: profanity enabled with two
words, nudity and violence keys absent. -/
def c1Filters : Filters :=
  ⟨some ⟨some true, some ["damn", "hell"], some "[bleep]", none⟩, none, none⟩

/-- C1 as stated is false on the code: the metadata actions list is
concatenated and sorted but never merged, so one cue with two distinct
profanity matches puts two distinct same-category events with identical,
overlapping [10, 12) spans into the built record. -/
theorem c1_counterexample :
    ¬ noSameCategoryOverlap
      (build_media_metadata (some [c1Cue]) none c1Filters simScoreNudity
        simScoreViolence).actions := by
  decide

theorem insertByStart_perm (a : MediaAction) (l : List MediaAction) :
    List.Perm (insertByStart a l) (a :: l) := by
  induction l with
  | nil => exact List.Perm.refl _
  | cons b bs ih =>
    simp only [insertByStart]
    split
    · exact List.Perm.refl _
    · exact (ih.cons b).trans (List.Perm.swap a b bs)

theorem sortByStart_perm_aux (l : List MediaAction) :
    ∀ acc : List MediaAction,
      List.Perm (l.foldl (fun acc a => insertByStart a acc) acc) (acc ++ l) := by
  induction l with
  | nil => intro acc; simp
  | cons a l ih =>
    intro acc
    exact ((ih (insertByStart a acc)).trans
      (((insertByStart_perm a acc).append_right l).trans
        List.perm_middle.symm))

theorem sortByStart_perm (l : List MediaAction) :
    List.Perm (sortByStart l) l := by
  simpa using sortByStart_perm_aux l []

theorem insertByStart_sorted {a : MediaAction} {l : List MediaAction}
    (hl : l.Pairwise (fun x y => x.start_time ≤ y.start_time)) :
    (insertByStart a l).Pairwise (fun x y => x.start_time ≤ y.start_time) := by
  induction l with
  | nil => simp [insertByStart]
  | cons b bs ih =>
    rw [List.pairwise_cons] at hl
    obtain ⟨hb, hbs⟩ := hl
    simp only [insertByStart]
    split
    · rename_i hab
      rw [List.pairwise_cons]
      refine ⟨?_, List.pairwise_cons.mpr ⟨hb, hbs⟩⟩
      intro x hx
      rcases List.mem_cons.mp hx with h | h
      · rw [h]; exact le_of_lt hab
      · exact le_trans (le_of_lt hab) (hb x h)
    · rename_i hab
      rw [List.pairwise_cons]
      refine ⟨?_, ih hbs⟩
      intro x hx
      rcases List.mem_cons.mp ((insertByStart_perm a bs).mem_iff.mp hx) with h | h
      · rw [h]; exact not_lt.mp hab
      · exact hb x h

theorem sortByStart_sorted (l : List MediaAction) :
    (sortByStart l).Pairwise (fun x y => x.start_time ≤ y.start_time) := by
  suffices h : ∀ (l acc : List MediaAction),
      acc.Pairwise (fun x y => x.start_time ≤ y.start_time) →
      (l.foldl (fun acc a => insertByStart a acc) acc).Pairwise
        (fun x y => x.start_time ≤ y.start_time) from h l [] List.Pairwise.nil
  intro l
  induction l with
  | nil => intro acc h; exact h
  | cons a l ih => intro acc h; exact ih _ (insertByStart_sorted h)

/-- Invariant of the preview grouping loop: if the not-yet-consumed
actions, the closed groups and the open group all satisfy the
same-type-separated ordering relations, so does the loop's output. -/
theorem groupLoop_pairwise :
    ∀ (rest : List MediaAction) (cur : MediaAction) (acc : List MediaAction),
    rest.Pairwise (fun a b => a.type = b.type → a.end_time ≤ b.start_time) →
    acc.Pairwise (fun a b => a.type = b.type → a.end_time ≤ b.start_time) →
    (∀ g ∈ acc, g.type = cur.type → g.end_time ≤ cur.start_time) →
    (∀ g ∈ acc, ∀ x ∈ rest, g.type = x.type → g.end_time ≤ x.start_time) →
    (∀ x ∈ rest, cur.type = x.type → cur.end_time ≤ x.start_time) →
    (groupLoop rest cur acc).Pairwise
      (fun a b => a.type = b.type → a.end_time ≤ b.start_time)
  | [], cur, acc, _, hacc, hcur, _, _ => by
    simp only [groupLoop]
    rw [List.pairwise_append]
    refine ⟨hacc, List.pairwise_singleton _ _, ?_⟩
    intro g hg c hc
    rw [List.mem_singleton] at hc
    rw [hc]
    exact hcur g hg
  | a :: rest, cur, acc, hrest, hacc, hcur, haccrest, hcurrest => by
    rw [List.pairwise_cons] at hrest
    obtain ⟨ha, hrest'⟩ := hrest
    simp only [groupLoop]
    split
    · rename_i hmerge
      apply groupLoop_pairwise rest _ acc hrest' hacc
      · intro g hg hgt
        exact hcur g hg hgt
      · intro g hg x hx hgx
        exact haccrest g hg x (List.mem_cons_of_mem a hx) hgx
      · intro x hx hxt
        refine max_le (hcurrest x (List.mem_cons_of_mem a hx) hxt)
          (ha x hx (hmerge.1.trans hxt))
    · apply groupLoop_pairwise rest a (acc ++ [cur]) hrest'
      · rw [List.pairwise_append]
        refine ⟨hacc, List.pairwise_singleton _ _, ?_⟩
        intro g hg c hc
        rw [List.mem_singleton] at hc
        rw [hc]
        exact hcur g hg
      · intro g hg hgt
        rcases List.mem_append.mp hg with h | h
        · exact haccrest g h a (List.mem_cons_self a rest) hgt
        · rw [List.mem_singleton] at h
          rw [h]
          exact hcurrest a (List.mem_cons_self a rest) (by rw [← h]; exact hgt)
      · intro g hg x hx hgx
        rcases List.mem_append.mp hg with h | h
        · exact haccrest g h x (List.mem_cons_of_mem a hx) hgx
        · rw [List.mem_singleton] at h
          rw [h]
          exact hcurrest x (List.mem_cons_of_mem a hx) (by rw [← h]; exact hgx)
      · exact fun x hx hxt => ha x hx hxt

/-- C1 amended: the actions list of the built record is not merged and
can hold overlapping same-category events, but the per-type grouping
pass that the builder applies for the preview report does keep the
invariant: whenever the raw video actions have positive duration and
same-category actions never overlap pairwise — as holds for frame
scanner output at integer fps — no two distinct same-category grouped
events overlap. -/
theorem c1_amended_grouped_preview (l : List MediaAction)
    (hdur : ∀ a ∈ l, a.start_time < a.end_time)
    (hsep : l.Pairwise (fun a b => a.type = b.type → ¬ overlaps a b)) :
    noSameCategoryOverlap (groupActions l) := by
  have hperm := sortByStart_perm l
  have hsort := sortByStart_sorted l
  have hdur' : ∀ a ∈ sortByStart l, a.start_time < a.end_time :=
    fun a ha => hdur a (hperm.mem_iff.mp ha)
  have hRsymm : Symmetric
      (fun a b : MediaAction => a.type = b.type → ¬ overlaps a b) := by
    intro a b h hba hov
    exact h hba.symm ⟨hov.2, hov.1⟩
  have hsep' : (sortByStart l).Pairwise
      (fun a b => a.type = b.type → ¬ overlaps a b) :=
    (hperm.pairwise_iff (fun hxy => hRsymm hxy)).mpr hsep
  have hPin : (sortByStart l).Pairwise
      (fun a b => a.type = b.type → a.end_time ≤ b.start_time) := by
    refine (hsort.and hsep').imp_of_mem ?_
    intro a b ha hb hab htype
    by_contra hlt
    push_neg at hlt
    exact hab.2 htype ⟨lt_of_le_of_lt hab.1 (hdur' b hb), hlt⟩
  have hPout : (groupActions l).Pairwise
      (fun a b => a.type = b.type → a.end_time ≤ b.start_time) := by
    unfold groupActions
    cases hls : sortByStart l with
    | nil => exact List.Pairwise.nil
    | cons c rest =>
      rw [hls] at hPin
      rw [List.pairwise_cons] at hPin
      obtain ⟨hc, hrest⟩ := hPin
      exact groupLoop_pairwise rest c [] hrest List.Pairwise.nil
        (by intro g hg; exact absurd hg (List.not_mem_nil g))
        (by intro g hg; exact absurd hg (List.not_mem_nil g)) hc
  have hPout2 : (groupActions l).Pairwise
      (fun a b : MediaAction => a.category = b.category → ¬ overlaps a b) := by
    refine hPout.imp ?_
    intro a b hab hcat hov
    exact absurd hov.2 (not_lt.mpr (hab hcat))
  have hSsymm : Symmetric
      (fun a b : MediaAction => a.category = b.category → ¬ overlaps a b) := by
    intro a b h hba hov
    exact h hba.symm ⟨hov.2, hov.1⟩
  intro a ha b hb hcat hne
  exact List.Pairwise.forall hSsymm hPout2 ha hb hne hcat

theorem c1_amended_grouped_preview_witness :
    noSameCategoryOverlap (groupActions
      [⟨"violence_detection", 30, 31, none, none, none, none,
        some "skip_scene"⟩,
       ⟨"violence_detection", 31, 32, none, none, none, none,
        some "skip_scene"⟩]) :=
  c1_amended_grouped_preview
    [⟨"violence_detection", 30, 31, none, none, none, none,
      some "skip_scene"⟩,
     ⟨"violence_detection", 31, 32, none, none, none, none,
      some "skip_scene"⟩] (by decide) (by decide)

theorem c5_frame_scanner_samples_witness :
    (scan_video_for_content (some (25, 25 * 60)) scannerTestFilters
        simScoreNudity simScoreViolence).filter
        (fun e => e.type == "nudity_detection") =
      ((sampleTimes (some (25, 25 * 60))).filter
          (fun t => decide (nudityThreshold scannerTestFilters ≤
            simScoreNudity t))).map
        (fun t => nudityActionAt t (simScoreNudity t)
          (nudityActionCfg scannerTestFilters)) :=
  (c5_frame_scanner_samples (some (25, 25 * 60)) scannerTestFilters
    simScoreNudity simScoreViolence).2.1 rfl
